import Mathlib

/-!
Shallow embedding of the two calculation services of the
`theobscenezen/credit-calculator` repository
(`src/services/credit-calculator.service.ts` and
`src/services/etf-calculator.service.ts`), together with proofs and
refutations of the frozen claims about them.

Modelling conventions:
* JavaScript numbers are idealised as exact rationals (`ℚ`); the claims under
  study are about formulas, rounding cadence, list shape and monotonicity, all
  of which are stated by the spec over ideal arithmetic.
* `Math.round x` is `⌊x + 1/2⌋` and `Number.EPSILON` is `2 ^ (-52 : ℤ)`.
* The `while` loop of `calculateSchedule` is embedded with an explicit fuel
  counter: the source loop runs while `month <= 1200`, i.e. exactly while
  `fuel = 1201 - month` is positive, so `fuel = 1200` at `month = 1`.
* The ETF service derives `monthlyReturnRate = (1 + annualReturnRate/100)^(1/12) - 1`
  once via `Math.pow` and afterwards uses it only as an opaque multiplier.
  That twelfth root is irrational for most inputs, so the embedding takes the
  derived monthly rate as an explicit parameter of `calculateGrowth`
  (for `annualReturnRate = 0` the derived rate is exactly `0`).
-/

namespace CreditCalc

/-- The `round` helper shared by both service files:
`Math.round((value + Number.EPSILON) * 100) / 100`. -/
def jsRound (value : ℚ) : ℚ := (⌊(value + 1 / 2 ^ 52) * 100 + 1 / 2⌋ : ℤ) / 100

/-- `PaymentEntry` of `credit-calculator.service.ts`.  `month` and `year` are
positive integers in every produced schedule, so they are embedded as `ℕ`. -/
structure PaymentEntry where
  month : ℕ
  year : ℕ
  interestPayment : ℚ
  repaymentPayment : ℚ
  totalPayment : ℚ
  remainingBalance : ℚ
deriving DecidableEq, Repr

/-- `YearlyPaymentEntry` of `credit-calculator.service.ts`. -/
structure YearlyPaymentEntry where
  year : ℕ
  interestPayment : ℚ
  repaymentPayment : ℚ
  totalPayment : ℚ
  remainingBalance : ℚ
deriving DecidableEq, Repr

/-- `CreditCalculatorOptions`.  The optional `id`/`name` metadata fields and
the destructured-but-never-read `yearsToCalculate` do not influence any
computation and are omitted. -/
structure CreditCalculatorOptions where
  loanAmount : ℚ
  interestRate : ℚ
  initialRepayment : ℚ
  equity : ℚ
deriving DecidableEq, Repr

/-- `CreditCalculatorService.calculateMonthlyRate` (lines 31-34):
`annualRate = loanAmount * (interestRate + initialRepayment) / 100`,
result `annualRate / 12`.  No rounding is applied in the source. -/
def calculateMonthlyRate (loanAmount interestRate initialRepayment : ℚ) : ℚ :=
  let annualRate := loanAmount * (interestRate + initialRepayment) / 100
  annualRate / 12

/-- Monthly-payment derivation as worded by the spec (§4.1
`deriveMonthlyPayment`): the same quotient with `round2` applied once.
Kept separate from `calculateMonthlyRate`, which embeds the source. -/
def calculateMonthlyRateSpec (loanAmount interestRate initialRepayment : ℚ) : ℚ :=
  jsRound (loanAmount * (interestRate + initialRepayment) / 100 / 12)

/-- The loop body of `calculateSchedule` (lines 50-71), fuel-indexed.
Each iteration computes the interest from the running balance, the repayment
(clamped to the balance in the final period), pushes the entry with
`year = Math.ceil(month / 12)` and `remainingBalance` clamped by `max 0`,
and recurses on the new balance. -/
def scheduleGo (monthlyInterestRate rate : ℚ) : ℕ → ℚ → ℕ → List PaymentEntry
  | 0, _, _ => []
  | fuel + 1, remainingBalance, month =>
    if 0 < remainingBalance then
      let interestPayment := remainingBalance * monthlyInterestRate
      let repaymentPayment :=
        if remainingBalance < rate - interestPayment then remainingBalance
        else rate - interestPayment
      let totalPayment := interestPayment + repaymentPayment
      let newBalance := remainingBalance - repaymentPayment
      { month := month, year := (month + 11) / 12,
        interestPayment := interestPayment, repaymentPayment := repaymentPayment,
        totalPayment := totalPayment, remainingBalance := max 0 newBalance } ::
        scheduleGo monthlyInterestRate rate fuel newBalance (month + 1)
    else []

/-- `CreditCalculatorService.calculateSchedule` (lines 39-73): starts from
`remainingBalance = loanAmount`, `monthlyInterestRate = interestRate/100/12`,
the fixed `rate` from `calculateMonthlyRate`, and loops while the balance is
positive and `month <= maxMonths = 1200`. -/
def calculateSchedule (options : CreditCalculatorOptions) : List PaymentEntry :=
  let monthlyInterestRate := options.interestRate / 100 / 12
  let rate := calculateMonthlyRate options.loanAmount options.interestRate
    options.initialRepayment
  scheduleGo monthlyInterestRate rate 1200 options.loanAmount 1

/-- A fresh `currentYear` accumulator with the given year index, as built at
the start of `aggregateYearlySchedule` and after every closed year group. -/
def freshYear (y : ℕ) : YearlyPaymentEntry :=
  { year := y, interestPayment := 0, repaymentPayment := 0, totalPayment := 0,
    remainingBalance := 0 }

/-- The `forEach` body of `aggregateYearlySchedule` (lines 88-104): fold each
month into the running `currentYear` (plain additions, no rounding in the
source), and close the group when `month % 12 == 0` or at the last index. -/
def aggGo (total : ℕ) : List PaymentEntry → ℕ → YearlyPaymentEntry →
    List YearlyPaymentEntry
  | [], _, _ => []
  | m :: rest, index, currentYear =>
    let c : YearlyPaymentEntry :=
      { year := currentYear.year,
        interestPayment := currentYear.interestPayment + m.interestPayment,
        repaymentPayment := currentYear.repaymentPayment + m.repaymentPayment,
        totalPayment := currentYear.totalPayment + m.totalPayment,
        remainingBalance := m.remainingBalance }
    if m.month % 12 = 0 ∨ index = total - 1 then
      c :: aggGo total rest (index + 1) (freshYear (c.year + 1))
    else
      aggGo total rest (index + 1) c

/-- `CreditCalculatorService.aggregateYearlySchedule` (lines 78-106). -/
def aggregateYearlySchedule (monthlySchedule : List PaymentEntry) :
    List YearlyPaymentEntry :=
  aggGo monthlySchedule.length monthlySchedule 0 (freshYear 1)

/-- Yearly aggregation as worded by the spec (§4.1 `aggregateYearly`): the same
grouping, but every running sum is re-rounded after each addition,
`running = round2(running + delta)`.  Kept separate from `aggGo`, which embeds
the source. -/
def aggGoSpec (total : ℕ) : List PaymentEntry → ℕ → YearlyPaymentEntry →
    List YearlyPaymentEntry
  | [], _, _ => []
  | m :: rest, index, currentYear =>
    let c : YearlyPaymentEntry :=
      { year := currentYear.year,
        interestPayment := jsRound (currentYear.interestPayment + m.interestPayment),
        repaymentPayment := jsRound (currentYear.repaymentPayment + m.repaymentPayment),
        totalPayment := jsRound (currentYear.totalPayment + m.totalPayment),
        remainingBalance := m.remainingBalance }
    if m.month % 12 = 0 ∨ index = total - 1 then
      c :: aggGoSpec total rest (index + 1) (freshYear (c.year + 1))
    else
      aggGoSpec total rest (index + 1) c

/-- Spec-worded yearly aggregation with the incremental `round2` cadence. -/
def aggregateYearlyScheduleSpec (monthlySchedule : List PaymentEntry) :
    List YearlyPaymentEntry :=
  aggGoSpec monthlySchedule.length monthlySchedule 0 (freshYear 1)

end CreditCalc

namespace CreditCalc

/-- One source-level year group: the longest nonempty block of leading entries
that ends at the first entry with `month % 12 == 0`, or the whole list when no
such entry occurs (the trailing partial year). -/
def takeGroup : List PaymentEntry → List PaymentEntry
  | [] => []
  | m :: rest => if m.month % 12 = 0 then [m] else m :: takeGroup rest

/-- The input entries remaining after the first year group of `takeGroup`. -/
def dropGroup : List PaymentEntry → List PaymentEntry
  | [] => []
  | m :: rest => if m.month % 12 = 0 then rest else dropGroup rest

/-- Exact (unrounded) sum of the `interestPayment` fields of a group. -/
def sumInterest (g : List PaymentEntry) : ℚ := (g.map PaymentEntry.interestPayment).sum

/-- Exact (unrounded) sum of the `repaymentPayment` fields of a group. -/
def sumRepayment (g : List PaymentEntry) : ℚ := (g.map PaymentEntry.repaymentPayment).sum

/-- Exact (unrounded) sum of the `totalPayment` fields of a group. -/
def sumTotal (g : List PaymentEntry) : ℚ := (g.map PaymentEntry.totalPayment).sum

/-- The `remainingBalance` of the last month of a group (`0` for an empty group). -/
def lastBalance (g : List PaymentEntry) : ℚ :=
  (g.getLast?.map PaymentEntry.remainingBalance).getD 0

/-- Reference yearly aggregation, group by group with exact sums.  The first
`ℕ` argument is plain fuel (any value at least the list length is exact); it
only serves to make the recursion structural. -/
def yearlyExactGo : ℕ → ℕ → List PaymentEntry → List YearlyPaymentEntry
  | _, _, [] => []
  | 0, _, _ :: _ => []
  | fuel + 1, y, m :: rest =>
    { year := y, interestPayment := sumInterest (takeGroup (m :: rest)),
      repaymentPayment := sumRepayment (takeGroup (m :: rest)),
      totalPayment := sumTotal (takeGroup (m :: rest)),
      remainingBalance := lastBalance (takeGroup (m :: rest)) } ::
      yearlyExactGo fuel (y + 1) (dropGroup (m :: rest))

/-- Reference yearly aggregation: split the monthly schedule into year groups
(closing a group at `month % 12 == 0` or at the final entry) and emit, per
group, the exact sums of its monetary fields and its last balance, with years
numbered from 1. -/
def yearlyExact (l : List PaymentEntry) : List YearlyPaymentEntry :=
  yearlyExactGo l.length 1 l

/-- `EtfYearlyEntry` of `etf-calculator.service.ts`. -/
structure EtfYearlyEntry where
  year : ℕ
  startBalance : ℚ
  investedThisYear : ℚ
  interestEarned : ℚ
  endBalance : ℚ
  totalInvested : ℚ
  totalInterest : ℚ
deriving DecidableEq, Repr

/-- `EtfCalculatorOptions`.  `years` is an `ℤ` so that the `years ≤ 0`
behaviour of the `for` loop is expressible. -/
structure EtfCalculatorOptions where
  initialBalance : ℚ
  monthlyContribution : ℚ
  annualReturnRate : ℚ
  years : ℤ
deriving DecidableEq, Repr

/-- The inner 12-month loop of `calculateGrowth` (lines 45-55): each month
rounds the interest, folds it into the yearly interest accumulator and the
balance, then rounds and adds the contribution; returns
`(balance, interestEarnedThisYear, investedThisYear)`. -/
def growthMonths (monthlyReturnRate monthlyContribution : ℚ) :
    ℕ → ℚ → ℚ → ℚ → ℚ × ℚ × ℚ
  | 0, currentBalance, interestEarnedThisYear, investedThisYear =>
    (currentBalance, interestEarnedThisYear, investedThisYear)
  | n + 1, currentBalance, interestEarnedThisYear, investedThisYear =>
    let interestThisMonth := jsRound (currentBalance * monthlyReturnRate)
    let interestAcc := jsRound (interestEarnedThisYear + interestThisMonth)
    let balanceAfterInterest := jsRound (currentBalance + interestThisMonth)
    let contribution := jsRound monthlyContribution
    let balanceAfterContribution := jsRound (balanceAfterInterest + contribution)
    let investedAcc := jsRound (investedThisYear + contribution)
    growthMonths monthlyReturnRate monthlyContribution n
      balanceAfterContribution interestAcc investedAcc

/-- The outer year loop of `calculateGrowth` (lines 40-69): run 12 months,
fold the yearly sums into the rounded running totals and emit the entry. -/
def growthYears (monthlyReturnRate monthlyContribution : ℚ) :
    ℕ → ℕ → ℚ → ℚ → ℚ → List EtfYearlyEntry
  | 0, _, _, _, _ => []
  | n + 1, year, currentBalance, totalInvested, totalInterest =>
    let r := growthMonths monthlyReturnRate monthlyContribution 12 currentBalance 0 0
    let totalInvestedAcc := jsRound (totalInvested + r.2.2)
    let totalInterestAcc := jsRound (totalInterest + r.2.1)
    { year := year, startBalance := currentBalance, investedThisYear := r.2.2,
      interestEarned := r.2.1, endBalance := r.1, totalInvested := totalInvestedAcc,
      totalInterest := totalInterestAcc } ::
      growthYears monthlyReturnRate monthlyContribution n (year + 1) r.1
        totalInvestedAcc totalInterestAcc

/-- `EtfCalculatorService.calculateGrowth` (lines 29-72).  The source first
derives `monthlyReturnRate = Math.pow(1 + annualReturnRate / 100, 1 / 12) - 1`
and afterwards uses only that ratio; the twelfth root is irrational for most
inputs, so the derived monthly rate is taken here as the explicit first
argument (it is exactly `0` when `annualReturnRate = 0`).  The loop
`for (year = 1; year <= years; year++)` runs `years.toNat` times. -/
def calculateGrowth (monthlyReturnRate : ℚ) (options : EtfCalculatorOptions) :
    List EtfYearlyEntry :=
  growthYears monthlyReturnRate options.monthlyContribution options.years.toNat 1
    (jsRound options.initialBalance) (jsRound options.initialBalance) 0

/-- A rational is a whole number of cents, i.e. in the image of `jsRound`. -/
def Cents (q : ℚ) : Prop := ∃ n : ℤ, q = (n : ℤ) / 100

/-- The exact unrounded recurrence of one amortization period, as a relation
between the period's opening balance and the emitted entry: interest is the
raw product `balance * monthlyInterestRate`, the repayment is the fixed
payment minus that interest (clamped to the whole balance in the final
period), the total is their exact sum, and the stored balance is the exact
difference clamped at zero.  No `round2` occurs anywhere. -/
def entryStep (monthlyInterestRate rate balance : ℚ) (e : PaymentEntry) : Prop :=
  e.interestPayment = balance * monthlyInterestRate ∧
  e.repaymentPayment =
    (if balance < rate - balance * monthlyInterestRate then balance
      else rate - balance * monthlyInterestRate) ∧
  e.totalPayment = e.interestPayment + e.repaymentPayment ∧
  e.remainingBalance = max 0 (balance - e.repaymentPayment)

end CreditCalc

namespace CreditCalc

/-! Helper lemmas about `jsRound`. -/

lemma jsRound_eq_of (v : ℚ) (n : ℤ) (h1 : (n : ℚ) ≤ (v + 1 / 2 ^ 52) * 100 + 1 / 2)
    (h2 : (v + 1 / 2 ^ 52) * 100 + 1 / 2 < n + 1) : jsRound v = (n : ℚ) / 100 := by
  have h : ⌊(v + 1 / 2 ^ 52) * 100 + 1 / 2⌋ = n :=
    Int.floor_eq_iff.mpr ⟨h1, by exact_mod_cast h2⟩
  rw [jsRound, h]

lemma cents_jsRound (v : ℚ) : Cents (jsRound v) := ⟨_, rfl⟩

lemma jsRound_cents_id (b : ℚ) (hb : Cents b) : jsRound b = b := by
  obtain ⟨n, rfl⟩ := hb
  rw [jsRound]
  have harg : ((n : ℚ) / 100 + 1 / 2 ^ 52) * 100 + 1 / 2 =
      (n : ℚ) + (100 / 2 ^ 52 + 1 / 2) := by ring
  rw [harg, Int.floor_int_add]
  have hsmall : ⌊(100 / 2 ^ 52 + 1 / 2 : ℚ)⌋ = 0 := by
    rw [Int.floor_eq_zero_iff]
    constructor <;> norm_num
  rw [hsmall]
  push_cast
  ring

lemma jsRound_nonneg (v : ℚ) (hv : 0 ≤ v) : 0 ≤ jsRound v := by
  rw [jsRound]
  have h : (0 : ℤ) ≤ ⌊(v + 1 / 2 ^ 52) * 100 + 1 / 2⌋ := by
    rw [Int.le_floor]
    push_cast
    nlinarith
  positivity

lemma jsRound_mono (a b : ℚ) (h : a ≤ b) : jsRound a ≤ jsRound b := by
  rw [jsRound, jsRound]
  have hf : ⌊(a + 1 / 2 ^ 52) * 100 + 1 / 2⌋ ≤ ⌊(b + 1 / 2 ^ 52) * 100 + 1 / 2⌋ :=
    Int.floor_le_floor (by linarith)
  have hc : ((⌊(a + 1 / 2 ^ 52) * 100 + 1 / 2⌋ : ℤ) : ℚ) ≤
      ((⌊(b + 1 / 2 ^ 52) * 100 + 1 / 2⌋ : ℤ) : ℚ) := by exact_mod_cast hf
  linarith

lemma le_jsRound_add (b c : ℚ) (hb : Cents b) (hc : 0 ≤ c) : b ≤ jsRound (b + c) := by
  calc b = jsRound b := (jsRound_cents_id b hb).symm
  _ ≤ jsRound (b + c) := jsRound_mono _ _ (by linarith)

lemma jsRound_zero : jsRound 0 = 0 := jsRound_cents_id 0 ⟨0, by norm_num⟩

lemma jsRound_hundred : jsRound 100 = 100 := jsRound_cents_id 100 ⟨10000, by norm_num⟩

/-! Helper lemmas about the amortization loop `scheduleGo`. -/

lemma scheduleGo_nonpos (mir rate : ℚ) (fuel : ℕ) (bal : ℚ) (m : ℕ)
    (h : ¬ 0 < bal) : scheduleGo mir rate fuel bal m = [] := by
  cases fuel with
  | zero => rfl
  | succ n => simp [scheduleGo, h]

lemma scheduleGo_succ_pos (mir rate : ℚ) (fuel : ℕ) (bal : ℚ) (m : ℕ) (h : 0 < bal) :
    scheduleGo mir rate (fuel + 1) bal m =
      { month := m, year := (m + 11) / 12,
        interestPayment := bal * mir,
        repaymentPayment := if bal < rate - bal * mir then bal else rate - bal * mir,
        totalPayment := bal * mir + (if bal < rate - bal * mir then bal else rate - bal * mir),
        remainingBalance :=
          max 0 (bal - (if bal < rate - bal * mir then bal else rate - bal * mir)) } ::
      scheduleGo mir rate fuel
        (bal - (if bal < rate - bal * mir then bal else rate - bal * mir)) (m + 1) := by
  rw [scheduleGo, if_pos h]

lemma scheduleGo_succ_noclamp (mir rate : ℚ) (fuel : ℕ) (bal : ℚ) (m : ℕ)
    (h : 0 < bal) (hc : ¬ bal < rate - bal * mir) :
    scheduleGo mir rate (fuel + 1) bal m =
      { month := m, year := (m + 11) / 12, interestPayment := bal * mir,
        repaymentPayment := rate - bal * mir,
        totalPayment := bal * mir + (rate - bal * mir),
        remainingBalance := max 0 (bal - (rate - bal * mir)) } ::
        scheduleGo mir rate fuel (bal - (rate - bal * mir)) (m + 1) := by
  rw [scheduleGo, if_pos h]
  simp only [if_neg hc]

lemma scheduleGo_length_le (mir rate : ℚ) :
    ∀ (fuel : ℕ) (bal : ℚ) (m : ℕ), (scheduleGo mir rate fuel bal m).length ≤ fuel := by
  intro fuel
  induction fuel with
  | zero => intro bal m; simp [scheduleGo]
  | succ n ih =>
    intro bal m
    rw [scheduleGo]
    split
    · simpa using ih _ _
    · simp

lemma newBalance_nonneg (mir rate bal : ℚ) (_h : 0 < bal) :
    0 ≤ bal - (if bal < rate - bal * mir then bal else rate - bal * mir) := by
  split_ifs with hc
  · linarith
  · linarith [not_lt.mp hc]

lemma newBalance_le (mir rate L bal : ℚ)
    (hkey : ∀ b, 0 < b → b ≤ L → 0 ≤ rate - b * mir)
    (h : 0 < bal) (hL : bal ≤ L) :
    bal - (if bal < rate - bal * mir then bal else rate - bal * mir) ≤ bal := by
  split_ifs with hc
  · linarith
  · linarith [hkey bal h hL]

lemma scheduleGo_chain (mir rate L : ℚ)
    (hkey : ∀ b, 0 < b → b ≤ L → 0 ≤ rate - b * mir) :
    ∀ (fuel : ℕ) (bal : ℚ) (m : ℕ), 0 < bal → bal ≤ L →
      List.Chain' (fun a b => b.remainingBalance ≤ a.remainingBalance)
          (scheduleGo mir rate fuel bal m) ∧
        ∀ e ∈ (scheduleGo mir rate fuel bal m).head?, e.remainingBalance ≤ bal := by
  intro fuel
  induction fuel with
  | zero => intro bal m _ _; simp [scheduleGo]
  | succ n ih =>
    intro bal m hpos hL
    rw [scheduleGo_succ_pos _ _ _ _ _ hpos]
    set nb := bal - (if bal < rate - bal * mir then bal else rate - bal * mir) with hnb
    have hnb0 : 0 ≤ nb := newBalance_nonneg _ _ _ hpos
    have hnble : nb ≤ bal := newBalance_le _ _ L _ hkey hpos hL
    have hmax : max 0 nb = nb := max_eq_right hnb0
    by_cases hp : 0 < nb
    · obtain ⟨hchain, hhead⟩ := ih nb (m + 1) hp (le_trans hnble hL)
      constructor
      · refine List.chain'_cons'.mpr ⟨?_, hchain⟩
        intro y hy
        simpa [hmax] using hhead y hy
      · intro e he
        simp only [List.head?_cons, Option.mem_def, Option.some.injEq] at he
        subst he
        simpa [hmax] using hnble
    · rw [scheduleGo_nonpos _ _ _ _ _ hp]
      constructor
      · exact List.chain'_singleton _
      · intro e he
        simp only [List.head?_cons, Option.mem_def, Option.some.injEq] at he
        subst he
        simpa [hmax] using hnble

lemma scheduleGo_getLast_zero (mir rate : ℚ) :
    ∀ (fuel : ℕ) (bal : ℚ) (m : ℕ), 0 < bal →
      (scheduleGo mir rate fuel bal m).length < fuel →
      ∃ e, (scheduleGo mir rate fuel bal m).getLast? = some e ∧ e.remainingBalance = 0 := by
  intro fuel
  induction fuel with
  | zero => intro bal m _ h; exact absurd h (by simp)
  | succ n ih =>
    intro bal m hpos hlen
    rw [scheduleGo_succ_pos _ _ _ _ _ hpos] at hlen ⊢
    set nb := bal - (if bal < rate - bal * mir then bal else rate - bal * mir) with hnb
    have hnb0 : 0 ≤ nb := newBalance_nonneg _ _ _ hpos
    have hlen' : (scheduleGo mir rate n nb (m + 1)).length < n := by
      simpa using hlen
    by_cases hp : 0 < nb
    · obtain ⟨e, he, hz⟩ := ih nb (m + 1) hp hlen'
      have hne : scheduleGo mir rate n nb (m + 1) ≠ [] := by
        intro hnil
        rw [hnil] at he
        simp at he
      obtain ⟨y, t, ht⟩ := List.exists_cons_of_ne_nil hne
      rw [ht] at he ⊢
      exact ⟨e, by rw [List.getLast?_cons_cons]; exact he, hz⟩
    · rw [scheduleGo_nonpos _ _ _ _ _ hp]
      refine ⟨_, rfl, ?_⟩
      have h0 : nb = 0 := le_antisymm (not_lt.mp hp) hnb0
      show max 0 nb = 0
      rw [h0]
      simp

lemma scheduleGo_flat_length :
    ∀ (fuel : ℕ) (bal : ℚ) (m : ℕ), (fuel : ℚ) * (1 / 1200) < bal →
      (scheduleGo 0 (1 / 1200) fuel bal m).length = fuel := by
  intro fuel
  induction fuel with
  | zero => intro bal m _; rfl
  | succ n ih =>
    intro bal m h
    push_cast at h
    have hpos : 0 < bal := by nlinarith
    have hcond : ¬ bal < 1 / 1200 - bal * 0 := by nlinarith
    rw [scheduleGo_succ_pos _ _ _ _ _ hpos, if_neg hcond]
    have harg : bal - (1 / 1200 - bal * 0) = bal - 1 / 1200 := by ring
    rw [List.length_cons, harg, ih (bal - 1 / 1200) (m + 1) (by linarith)]

lemma mem_scheduleGo_totalPayment (mir rate : ℚ) :
    ∀ (fuel : ℕ) (bal : ℚ) (m : ℕ) (e : PaymentEntry),
      e ∈ scheduleGo mir rate fuel bal m →
      e.totalPayment = e.interestPayment + e.repaymentPayment := by
  intro fuel
  induction fuel with
  | zero => intro bal m e he; simp [scheduleGo] at he
  | succ n ih =>
    intro bal m e he
    by_cases hpos : 0 < bal
    · rw [scheduleGo_succ_pos _ _ _ _ _ hpos] at he
      rcases List.mem_cons.mp he with h | h
      · subst h; rfl
      · exact ih _ _ _ h
    · rw [scheduleGo_nonpos _ _ _ _ _ hpos] at he
      simp at he

lemma scheduleGo_head_step (mir rate : ℚ) :
    ∀ (fuel : ℕ) (bal : ℚ) (m : ℕ) (e : PaymentEntry),
      (scheduleGo mir rate fuel bal m).head? = some e → entryStep mir rate bal e := by
  intro fuel bal m e he
  cases fuel with
  | zero => simp [scheduleGo] at he
  | succ n =>
    by_cases hpos : 0 < bal
    · rw [scheduleGo_succ_pos _ _ _ _ _ hpos] at he
      simp only [List.head?_cons, Option.some.injEq] at he
      subst he
      exact ⟨rfl, rfl, rfl, rfl⟩
    · rw [scheduleGo_nonpos _ _ _ _ _ hpos] at he
      simp at he

lemma scheduleGo_chain_step (mir rate : ℚ) :
    ∀ (fuel : ℕ) (bal : ℚ) (m : ℕ),
      List.Chain' (fun e1 e2 => entryStep mir rate e1.remainingBalance e2)
        (scheduleGo mir rate fuel bal m) := by
  intro fuel
  induction fuel with
  | zero => intro bal m; simp [scheduleGo]
  | succ n ih =>
    intro bal m
    by_cases hpos : 0 < bal
    · rw [scheduleGo_succ_pos _ _ _ _ _ hpos]
      refine List.chain'_cons'.mpr ⟨?_, ih _ _⟩
      intro y hy
      set nb := bal - (if bal < rate - bal * mir then bal else rate - bal * mir) with hnbdef
      have hnbpos : 0 < nb := by
        by_contra hc
        rw [scheduleGo_nonpos _ _ _ _ _ hc] at hy
        simp at hy
      have hstep := scheduleGo_head_step mir rate n nb (m + 1) y (Option.mem_def.mp hy)
      have hmax : max 0 nb = nb := max_eq_right (le_of_lt hnbpos)
      show entryStep mir rate (max 0 nb) y
      rw [hmax]
      exact hstep
    · rw [scheduleGo_nonpos _ _ _ _ _ hpos]
      simp

/-- The one-month schedule of a loan that is repaid in full by its first
payment; used to instantiate universally quantified results concretely. -/
lemma calculateSchedule_unit :
    calculateSchedule ⟨100, 0, 1200, 0⟩ = [⟨1, 1, 0, 100, 100, 0⟩] := by
  have hrate : calculateMonthlyRate 100 0 1200 = 100 := by norm_num [calculateMonthlyRate]
  rw [calculateSchedule]
  simp only [hrate]
  norm_num
  rw [show (1200 : ℕ) = 1199 + 1 by norm_num,
    scheduleGo_succ_noclamp _ _ _ _ _ (by norm_num) (by norm_num),
    scheduleGo_nonpos _ _ _ _ _ (by norm_num)]
  norm_num [PaymentEntry.mk.injEq]

end CreditCalc

namespace CreditCalc

/-! Helper lemmas about yearly aggregation. -/

lemma yearlyExactGo_nil (fuel y : ℕ) : yearlyExactGo fuel y [] = [] := by
  cases fuel <;> rfl

lemma dropGroup_length_lt : ∀ l : List PaymentEntry, l ≠ [] →
    (dropGroup l).length < l.length := by
  intro l
  induction l with
  | nil => intro h; exact absurd rfl h
  | cons m rest ih =>
    intro _
    rw [dropGroup]
    split
    · simp
    · rcases eq_or_ne rest [] with hr | hr
      · subst hr; simp [dropGroup]
      · exact lt_trans (ih hr) (by simp)

lemma takeGroup_ne_nil : ∀ l : List PaymentEntry, l ≠ [] → takeGroup l ≠ [] := by
  intro l
  induction l with
  | nil => intro h; exact absurd rfl h
  | cons m rest _ =>
    intro _
    rw [takeGroup]
    split <;> simp

lemma takeGroup_cons_of_month (m : PaymentEntry) (rest : List PaymentEntry)
    (hm : m.month % 12 = 0) : takeGroup (m :: rest) = [m] := by
  simp [takeGroup, hm]

lemma takeGroup_cons_of_mid (m : PaymentEntry) (rest : List PaymentEntry)
    (hm : ¬ m.month % 12 = 0) : takeGroup (m :: rest) = m :: takeGroup rest := by
  simp [takeGroup, hm]

lemma dropGroup_cons_of_month (m : PaymentEntry) (rest : List PaymentEntry)
    (hm : m.month % 12 = 0) : dropGroup (m :: rest) = rest := by
  simp [dropGroup, hm]

lemma dropGroup_cons_of_mid (m : PaymentEntry) (rest : List PaymentEntry)
    (hm : ¬ m.month % 12 = 0) : dropGroup (m :: rest) = dropGroup rest := by
  simp [dropGroup, hm]

lemma aggGo_eq_yearlyExactGo (total : ℕ) :
    ∀ (l : List PaymentEntry) (idx : ℕ) (cur : YearlyPaymentEntry) (fuel : ℕ),
      idx + l.length = total → l ≠ [] → (dropGroup l).length ≤ fuel →
      aggGo total l idx cur =
        { year := cur.year,
          interestPayment := cur.interestPayment + sumInterest (takeGroup l),
          repaymentPayment := cur.repaymentPayment + sumRepayment (takeGroup l),
          totalPayment := cur.totalPayment + sumTotal (takeGroup l),
          remainingBalance := lastBalance (takeGroup l) } ::
        yearlyExactGo fuel (cur.year + 1) (dropGroup l) := by
  intro l
  induction l with
  | nil => intro idx cur fuel _ h _; exact absurd rfl h
  | cons m rest ih =>
    intro idx cur fuel htotal _ hfuel
    have htotal' : idx + 1 + rest.length = total := by
      simp only [List.length_cons] at htotal; omega
    by_cases hm : m.month % 12 = 0
    · rw [aggGo, if_pos (Or.inl hm)]
      rw [takeGroup_cons_of_month m rest hm, dropGroup_cons_of_month m rest hm]
      rw [dropGroup_cons_of_month m rest hm] at hfuel
      rcases eq_or_ne rest [] with hr | hr
      · subst hr
        rw [aggGo, yearlyExactGo_nil]
        simp [freshYear, sumInterest, sumRepayment, sumTotal, lastBalance]
      · obtain ⟨r, t, hrt⟩ := List.exists_cons_of_ne_nil hr
        have hlen1 : 1 ≤ rest.length := by rw [hrt]; simp
        obtain ⟨f, hf⟩ : ∃ f, fuel = f + 1 := by
          have h1 : 1 ≤ fuel := le_trans hlen1 hfuel
          exact ⟨fuel - 1, by omega⟩
        subst hf
        have hdrop : (dropGroup rest).length ≤ f := by
          have := dropGroup_length_lt rest hr
          omega
        have hunf : yearlyExactGo (f + 1) (cur.year + 1) rest =
            { year := cur.year + 1, interestPayment := sumInterest (takeGroup rest),
              repaymentPayment := sumRepayment (takeGroup rest),
              totalPayment := sumTotal (takeGroup rest),
              remainingBalance := lastBalance (takeGroup rest) } ::
            yearlyExactGo f (cur.year + 1 + 1) (dropGroup rest) := by
          rw [hrt, yearlyExactGo, ← hrt]
        refine congrArg₂ List.cons ?_ ?_
        · simp [sumInterest, sumRepayment, sumTotal, lastBalance]
        · rw [ih (idx + 1) (freshYear (cur.year + 1)) f htotal' hr hdrop, hunf]
          simp [freshYear]
    · rw [takeGroup_cons_of_mid m rest hm, dropGroup_cons_of_mid m rest hm]
      rw [dropGroup_cons_of_mid m rest hm] at hfuel
      rcases eq_or_ne rest [] with hr | hr
      · subst hr
        have hidx : idx = total - 1 := by
          simp only [List.length_nil] at htotal'; omega
        rw [aggGo, if_pos (Or.inr hidx), aggGo]
        rw [show dropGroup ([] : List PaymentEntry) = [] from rfl, yearlyExactGo_nil]
        simp [takeGroup, sumInterest, sumRepayment, sumTotal, lastBalance]
      · have hlen1 : 1 ≤ rest.length := by
          rcases List.exists_cons_of_ne_nil hr with ⟨r, t, hrt⟩
          rw [hrt]; simp
        have hidx : ¬ idx = total - 1 := by omega
        rw [aggGo, if_neg (by push_neg; exact ⟨hm, hidx⟩)]
        rw [ih (idx + 1) _ fuel htotal' hr hfuel]
        refine congrArg₂ List.cons ?_ rfl
        have htk := takeGroup_ne_nil rest hr
        obtain ⟨g, gs, hg⟩ := List.exists_cons_of_ne_nil htk
        simp only [YearlyPaymentEntry.mk.injEq]
        refine ⟨trivial, ?_, ?_, ?_, ?_⟩
        · simp only [sumInterest, List.map_cons, List.sum_cons]; ring
        · simp only [sumRepayment, List.map_cons, List.sum_cons]; ring
        · simp only [sumTotal, List.map_cons, List.sum_cons]; ring
        · rw [lastBalance, lastBalance, hg, List.getLast?_cons_cons]

lemma aggregateYearly_eq_yearlyExact (l : List PaymentEntry) :
    aggregateYearlySchedule l = yearlyExact l := by
  rcases eq_or_ne l [] with hl | hl
  · subst hl; rfl
  · obtain ⟨m, rest, hmr⟩ := List.exists_cons_of_ne_nil hl
    subst hmr
    rw [aggregateYearlySchedule, yearlyExact]
    rw [aggGo_eq_yearlyExactGo (m :: rest).length (m :: rest) 0 (freshYear 1)
      rest.length (by omega) hl
      (by have := dropGroup_length_lt (m :: rest) hl
          simp only [List.length_cons] at this; omega)]
    simp only [List.length_cons]
    rw [yearlyExactGo]
    simp [freshYear]

lemma aggGo_map_year (total : ℕ) :
    ∀ (l : List PaymentEntry) (idx : ℕ) (cur : YearlyPaymentEntry),
      (aggGo total l idx cur).map YearlyPaymentEntry.year =
        List.range' cur.year (aggGo total l idx cur).length := by
  intro l
  induction l with
  | nil => intro idx cur; rfl
  | cons m rest ih =>
    intro idx cur
    rw [aggGo]
    split
    · rw [List.map_cons, List.length_cons, List.range'_succ]
      refine congrArg₂ List.cons rfl ?_
      have h := ih (idx + 1) (freshYear (cur.year + 1))
      simpa [freshYear] using h
    · exact ih (idx + 1) _

end CreditCalc

namespace CreditCalc

/-! Helper lemmas about the growth engine. -/

lemma growthMonths_balance (monthlyReturnRate monthlyContribution : ℚ)
    (hr : 0 ≤ monthlyReturnRate) (hc : 0 ≤ monthlyContribution) :
    ∀ (n : ℕ) (bal intY invY : ℚ), 0 ≤ bal → Cents bal →
      bal ≤ (growthMonths monthlyReturnRate monthlyContribution n bal intY invY).1 ∧
      0 ≤ (growthMonths monthlyReturnRate monthlyContribution n bal intY invY).1 ∧
      Cents (growthMonths monthlyReturnRate monthlyContribution n bal intY invY).1 := by
  intro n
  induction n with
  | zero => intro bal intY invY h0 hcents; exact ⟨le_refl _, h0, hcents⟩
  | succ k ih =>
    intro bal intY invY h0 hcents
    rw [growthMonths]
    have him : 0 ≤ jsRound (bal * monthlyReturnRate) :=
      jsRound_nonneg _ (mul_nonneg h0 hr)
    have hb1 : bal ≤ jsRound (bal + jsRound (bal * monthlyReturnRate)) :=
      le_jsRound_add _ _ hcents him
    have hcontrib : 0 ≤ jsRound monthlyContribution := jsRound_nonneg _ hc
    have hb2 : jsRound (bal + jsRound (bal * monthlyReturnRate)) ≤
        jsRound (jsRound (bal + jsRound (bal * monthlyReturnRate)) +
          jsRound monthlyContribution) :=
      le_jsRound_add _ _ (cents_jsRound _) hcontrib
    have hbal2 : bal ≤ jsRound (jsRound (bal + jsRound (bal * monthlyReturnRate)) +
        jsRound monthlyContribution) := le_trans hb1 hb2
    obtain ⟨ih1, ih2, ih3⟩ := ih
      (jsRound (jsRound (bal + jsRound (bal * monthlyReturnRate)) +
        jsRound monthlyContribution))
      (jsRound (intY + jsRound (bal * monthlyReturnRate)))
      (jsRound (invY + jsRound monthlyContribution))
      (le_trans h0 hbal2) (cents_jsRound _)
    exact ⟨le_trans hbal2 ih1, ih2, ih3⟩

lemma growthYears_length (monthlyReturnRate monthlyContribution : ℚ) :
    ∀ (n : ℕ) (year : ℕ) (bal tV tI : ℚ),
      (growthYears monthlyReturnRate monthlyContribution n year bal tV tI).length = n := by
  intro n
  induction n with
  | zero => intro year bal tV tI; rfl
  | succ k ih => intro year bal tV tI; rw [growthYears]; simp [ih]

lemma growthYears_head_endBalance (monthlyReturnRate monthlyContribution : ℚ)
    (n year : ℕ) (bal tV tI : ℚ) :
    ∀ e ∈ (growthYears monthlyReturnRate monthlyContribution (n + 1) year bal tV tI).head?,
      e.endBalance = (growthMonths monthlyReturnRate monthlyContribution 12 bal 0 0).1 := by
  intro e he
  rw [growthYears] at he
  simp only [List.head?_cons, Option.mem_def, Option.some.injEq] at he
  subst he
  rfl

lemma growthYears_chain (monthlyReturnRate monthlyContribution : ℚ)
    (hr : 0 ≤ monthlyReturnRate) (hc : 0 ≤ monthlyContribution) :
    ∀ (n : ℕ) (year : ℕ) (bal tV tI : ℚ), 0 ≤ bal → Cents bal →
      List.Chain' (fun a b => a.endBalance ≤ b.endBalance)
        (growthYears monthlyReturnRate monthlyContribution n year bal tV tI) := by
  intro n
  induction n with
  | zero => intro year bal tV tI _ _; exact List.chain'_nil
  | succ k ih =>
    intro year bal tV tI h0 hcents
    rw [growthYears]
    obtain ⟨hle, hpos, hcent⟩ :=
      growthMonths_balance monthlyReturnRate monthlyContribution hr hc 12 bal 0 0 h0 hcents
    refine List.chain'_cons'.mpr ⟨?_, ih (year + 1) _ _ _ hpos hcent⟩
    intro y hy
    cases k with
    | zero => simp [growthYears] at hy
    | succ j =>
      have hy' := growthYears_head_endBalance monthlyReturnRate monthlyContribution j
        (year + 1) _ _ _ y hy
      rw [hy']
      show (growthMonths monthlyReturnRate monthlyContribution 12
          (growthMonths monthlyReturnRate monthlyContribution 12 bal 0 0).1 0 0).1 ≥ _
      obtain ⟨hle2, _, _⟩ := growthMonths_balance monthlyReturnRate monthlyContribution
        hr hc 12 (growthMonths monthlyReturnRate monthlyContribution 12 bal 0 0).1 0 0
        hpos hcent
      exact hle2

lemma growthMonths_zero_rate :
    ∀ (n : ℕ) (bal : ℚ), Cents bal → growthMonths 0 0 n bal 0 0 = (bal, 0, 0) := by
  intro n
  induction n with
  | zero => intro bal _; rfl
  | succ k ih =>
    intro bal hcents
    rw [growthMonths]
    simp only [mul_zero, jsRound_zero, add_zero, zero_add, jsRound_cents_id bal hcents]
    exact ih bal hcents

lemma growthYears_zero_rate_endBalances :
    ∀ (n : ℕ) (year : ℕ) (bal tV tI : ℚ), Cents bal →
      (growthYears 0 0 n year bal tV tI).map EtfYearlyEntry.endBalance =
        List.replicate n bal := by
  intro n
  induction n with
  | zero => intro year bal tV tI _; rfl
  | succ k ih =>
    intro year bal tV tI hcents
    rw [growthYears, List.replicate_succ]
    have hz := growthMonths_zero_rate 12 bal hcents
    rw [hz]
    simp only [List.map_cons]
    exact congrArg₂ List.cons rfl (ih (year + 1) bal _ _ hcents)

end CreditCalc

namespace CreditCalc

/-! The claim theorems. -/

/-- C1, counterexample: `calculateMonthlyRate` applies no rounding.  For the
concrete scenario `principal = 250000`, `interestRate = 3.5`,
`initialRepayment = 2.0` it returns exactly `6875/6 = 1145.8333…`, which is
not the claimed `1145.83`; the spec-worded rounded derivation
(`calculateMonthlyRateSpec`) gives `1145.83`, so the two disagree here. -/
theorem C1_monthlyRate_not_rounded :
    calculateMonthlyRate 250000 (7 / 2) 2 = 6875 / 6 ∧
    calculateMonthlyRateSpec 250000 (7 / 2) 2 = 114583 / 100 ∧
    (6875 / 6 : ℚ) ≠ 114583 / 100 := by
  refine ⟨by norm_num [calculateMonthlyRate], ?_, by norm_num⟩
  rw [calculateMonthlyRateSpec,
    show (250000 : ℚ) * (7 / 2 + 2) / 100 / 12 = 6875 / 6 by norm_num,
    jsRound_eq_of (6875 / 6) 114583 (by norm_num) (by norm_num)]
  norm_num

/-- C1, amended: `calculateMonthlyRate` returns the exact unrounded quotient
`loanAmount * (interestRate + initialRepayment) / 100 / 12`; in particular it
returns `6875/6 = 1145.8333…` (not `1145.83`) for the concrete scenario. -/
theorem C1_monthlyRate_exact_quotient :
    (∀ loanAmount interestRate initialRepayment : ℚ,
      calculateMonthlyRate loanAmount interestRate initialRepayment =
        loanAmount * (interestRate + initialRepayment) / 100 / 12) ∧
    calculateMonthlyRate 250000 (7 / 2) 2 = 6875 / 6 := by
  exact ⟨fun _ _ _ => rfl, by norm_num [calculateMonthlyRate]⟩

/-- C2, counterexample: for `principal = 250000`, `rate = 3.5`,
`amortization = 2.0` the first schedule entry holds the exact values
`interestPayment = 4375/6 = 729.166…`, `repaymentPayment = 1250/3 = 416.66…`,
`remainingBalance = 748750/3 = 249583.33…` — none of them rounded to cents —
and in particular the interest portion is not the claimed `729.17`. -/
theorem C2_first_entry_not_rounded :
    (calculateSchedule ⟨250000, 7 / 2, 2, 0⟩).head? =
      some ⟨1, 1, 4375 / 6, 1250 / 3, 6875 / 6, 748750 / 3⟩ ∧
    (4375 / 6 : ℚ) ≠ 72917 / 100 := by
  refine ⟨?_, by norm_num⟩
  have hrate : calculateMonthlyRate 250000 (7 / 2) 2 = 6875 / 6 := by
    norm_num [calculateMonthlyRate]
  rw [calculateSchedule]
  simp only [hrate]
  norm_num
  rw [show (1200 : ℕ) = 1199 + 1 by norm_num,
    scheduleGo_succ_noclamp _ _ _ _ _ (by norm_num) (by norm_num)]
  norm_num [PaymentEntry.mk.injEq]

/-- C2, amended: for every input, every period of `calculateSchedule` follows
the exact unrounded recurrence `entryStep`: the first entry is computed from
the opening balance `loanAmount`, and each further entry from the previous
entry's stored `remainingBalance` — `interestPortion = balance * monthlyRate`,
`principalPortion = payment − interestPortion` (clamped to the balance),
`totalPayment` the exact sum, `remainingBalance = max 0 (balance − principal)`,
with no `round2` anywhere.  The first entry of the concrete scenario carries
the exact unrounded values `729.166…`, `416.66…`, `1145.833…`, `249583.33…`. -/
theorem C2_entries_exact_arithmetic :
    (∀ options : CreditCalculatorOptions,
      (∀ e ∈ (calculateSchedule options).head?,
        entryStep (options.interestRate / 100 / 12)
          (calculateMonthlyRate options.loanAmount options.interestRate
            options.initialRepayment) options.loanAmount e) ∧
      List.Chain' (fun e1 e2 =>
          entryStep (options.interestRate / 100 / 12)
            (calculateMonthlyRate options.loanAmount options.interestRate
              options.initialRepayment) e1.remainingBalance e2)
        (calculateSchedule options)) ∧
    (calculateSchedule ⟨250000, 7 / 2, 2, 0⟩).head? =
      some ⟨1, 1, 4375 / 6, 1250 / 3, 6875 / 6, 748750 / 3⟩ := by
  constructor
  · intro options
    constructor
    · intro e he
      exact scheduleGo_head_step _ _ 1200 _ 1 e (Option.mem_def.mp he)
    · exact scheduleGo_chain_step _ _ 1200 _ 1
  · have hrate : calculateMonthlyRate 250000 (7 / 2) 2 = 6875 / 6 := by
      norm_num [calculateMonthlyRate]
    rw [calculateSchedule]
    simp only [hrate]
    norm_num
    rw [show (1200 : ℕ) = 1199 + 1 by norm_num,
      scheduleGo_succ_noclamp _ _ _ _ _ (by norm_num) (by norm_num)]
    norm_num [PaymentEntry.mk.injEq]

/-- C2, witness: `C2_entries_exact_arithmetic` instantiated at the concrete
one-entry schedule of `loanAmount = 100`, `interestRate = 0`,
`initialRepayment = 1200`, with the head-membership hypothesis discharged
concretely and the consecutive-entry chain taken at the same input. -/
theorem C2_entries_exact_arithmetic_witness :
    entryStep ((0 : ℚ) / 100 / 12) (calculateMonthlyRate 100 0 1200) 100
      ⟨1, 1, 0, 100, 100, 0⟩ ∧
    List.Chain' (fun e1 e2 =>
        entryStep ((0 : ℚ) / 100 / 12) (calculateMonthlyRate 100 0 1200)
          e1.remainingBalance e2)
      (calculateSchedule ⟨100, 0, 1200, 0⟩) :=
  ⟨(C2_entries_exact_arithmetic.1 ⟨100, 0, 1200, 0⟩).1 ⟨1, 1, 0, 100, 100, 0⟩
      (by rw [calculateSchedule_unit]; rfl),
    (C2_entries_exact_arithmetic.1 ⟨100, 0, 1200, 0⟩).2⟩

/-- C3, counterexample: `loanAmount = 100`, `interestRate = 0`,
`initialRepayment = 0.01` lies in the claim's domain (positive principal,
nonnegative rate, positive amortization rate, and the derived monthly payment
`1/1200` exceeds one month's interest `0` on the full principal), yet
`calculateSchedule` returns exactly 1200 entries — not strictly fewer —
stopping only at the safety ceiling with balance `99` still outstanding. -/
theorem C3_ceiling_reached_counterexample :
    0 < (100 : ℚ) ∧ 0 ≤ (0 : ℚ) ∧ 0 < (1 / 100 : ℚ) ∧
    100 * ((0 : ℚ) / 100 / 12) < calculateMonthlyRate 100 0 (1 / 100) ∧
    (calculateSchedule ⟨100, 0, 1 / 100, 0⟩).length = 1200 := by
  refine ⟨by norm_num, le_refl 0, by norm_num, by norm_num [calculateMonthlyRate], ?_⟩
  have heq : calculateSchedule ⟨100, 0, 1 / 100, 0⟩ =
      scheduleGo 0 (1 / 1200) 1200 100 1 := by
    rw [calculateSchedule]
    norm_num [calculateMonthlyRate]
  rw [heq, scheduleGo_flat_length 1200 100 1 (by norm_num)]

/-- C3, amended: for every positive principal the schedule is nonempty, and
whenever `calculateSchedule` stops before the 1200-period ceiling (i.e.
returns fewer than 1200 entries), its last entry has `remainingBalance`
exactly `0`.  A payment merely exceeding the first month's interest does not
guarantee termination within 1200 periods. -/
theorem C3_zero_final_balance_when_terminating :
    ∀ options : CreditCalculatorOptions, 0 < options.loanAmount →
      calculateSchedule options ≠ [] ∧
      ((calculateSchedule options).length < 1200 →
        ∃ e, (calculateSchedule options).getLast? = some e ∧ e.remainingBalance = 0) := by
  intro options hL
  constructor
  · rw [calculateSchedule, scheduleGo_succ_pos _ _ _ _ _ hL]
    exact List.cons_ne_nil _ _
  · intro hlen
    exact scheduleGo_getLast_zero _ _ 1200 _ 1 hL hlen

/-- C3, witness: `C3_zero_final_balance_when_terminating` instantiated at the
one-month schedule `loanAmount = 100`, `interestRate = 0`,
`initialRepayment = 1200`, with both hypotheses discharged concretely. -/
theorem C3_zero_final_balance_witness :
    calculateSchedule ⟨100, 0, 1200, 0⟩ ≠ [] ∧
    ∃ e, (calculateSchedule ⟨100, 0, 1200, 0⟩).getLast? = some e ∧
      e.remainingBalance = 0 := by
  have h := C3_zero_final_balance_when_terminating ⟨100, 0, 1200, 0⟩ (by norm_num)
  exact ⟨h.1, h.2 (by rw [calculateSchedule_unit]; norm_num)⟩

/-- C4: for parameters in the documented domain (`loanAmount > 0`,
`interestRate ≥ 0`, `initialRepayment ≥ 0`) the `remainingBalance` fields of
consecutive schedule entries are non-increasing. -/
theorem C4_remainingBalance_monotone :
    ∀ options : CreditCalculatorOptions,
      0 < options.loanAmount → 0 ≤ options.interestRate → 0 ≤ options.initialRepayment →
      List.Chain' (fun a b => b.remainingBalance ≤ a.remainingBalance)
        (calculateSchedule options) := by
  intro options hL hi ha
  have hkey : ∀ b, 0 < b → b ≤ options.loanAmount →
      0 ≤ calculateMonthlyRate options.loanAmount options.interestRate
          options.initialRepayment - b * (options.interestRate / 100 / 12) := by
    intro b hb hbL
    rw [calculateMonthlyRate]
    have hexp : options.loanAmount * (options.interestRate + options.initialRepayment) /
        100 / 12 - b * (options.interestRate / 100 / 12) =
        (options.loanAmount * options.initialRepayment +
          (options.loanAmount - b) * options.interestRate) / 1200 := by ring
    rw [hexp]
    have h1 : 0 ≤ options.loanAmount * options.initialRepayment :=
      mul_nonneg (le_of_lt hL) ha
    have h2 : 0 ≤ (options.loanAmount - b) * options.interestRate :=
      mul_nonneg (by linarith) hi
    positivity
  exact (scheduleGo_chain _ _ options.loanAmount hkey 1200 _ 1 hL (le_refl _)).1

/-- C4, witness: the monotone-decay theorem applied to the concrete
parameters `loanAmount = 100`, `interestRate = 0`, `initialRepayment = 1200`. -/
theorem C4_remainingBalance_monotone_witness :
    0 < (100 : ℚ) ∧ 0 ≤ (0 : ℚ) ∧ 0 ≤ (1200 : ℚ) ∧
    List.Chain' (fun a b => b.remainingBalance ≤ a.remainingBalance)
      (calculateSchedule ⟨100, 0, 1200, 0⟩) :=
  ⟨by norm_num, le_refl 0, by norm_num,
    C4_remainingBalance_monotone ⟨100, 0, 1200, 0⟩ (by norm_num) (le_refl 0) (by norm_num)⟩

/-- C5: `calculateSchedule` is a total function (the embedding is a plain
recursive definition, so every input terminates) and never returns more than
1200 entries; hitting the ceiling truncates the list, no exception exists. -/
theorem C5_length_le_1200 :
    ∀ options : CreditCalculatorOptions, (calculateSchedule options).length ≤ 1200 := by
  intro options
  exact scheduleGo_length_le _ _ 1200 _ 1

/-- C6, counterexample: `aggregateYearlySchedule` accumulates with plain
additions.  On two months with `interestPayment = 0.005` each, the code sums
to `0.01`, while the spec's `running = round2(running + delta)` cadence
(`aggregateYearlyScheduleSpec`) yields `0.02` — so the yearly sums do not
follow the claimed incremental-rounding cadence. -/
theorem C6_sum_cadence_counterexample :
    (aggregateYearlySchedule
        [⟨1, 1, 1 / 200, 0, 0, 0⟩, ⟨2, 1, 1 / 200, 0, 0, 0⟩]).map
      YearlyPaymentEntry.interestPayment = [1 / 100] ∧
    (aggregateYearlyScheduleSpec
        [⟨1, 1, 1 / 200, 0, 0, 0⟩, ⟨2, 1, 1 / 200, 0, 0, 0⟩]).map
      YearlyPaymentEntry.interestPayment = [1 / 50] ∧
    (1 / 100 : ℚ) ≠ 1 / 50 := by
  have h1 : jsRound (1 / 200 : ℚ) = 1 / 100 := by
    rw [jsRound_eq_of (1 / 200 : ℚ) 1 (by norm_num) (by norm_num)]
    norm_num
  have h2 : jsRound (1 / 100 + 1 / 200 : ℚ) = 1 / 50 := by
    rw [jsRound_eq_of (1 / 100 + 1 / 200 : ℚ) 2 (by norm_num) (by norm_num)]
    norm_num
  refine ⟨?_, ?_, by norm_num⟩
  · norm_num [aggregateYearlySchedule, aggGo, freshYear]
  · norm_num [aggregateYearlyScheduleSpec, aggGoSpec, freshYear, jsRound_zero]
    rw [h1, h2]

/-- C6, amended: `aggregateYearlySchedule` closes a year group exactly when
the month number is divisible by 12 or at the final input entry, each summed
field is accumulated with plain exact additions (no rounding), and the
group's `remainingBalance` is that of the last month folded into the group:
the output equals the group-by-group reference `yearlyExact`. -/
theorem C6_yearly_groups_exact_sums :
    ∀ monthlySchedule : List PaymentEntry,
      aggregateYearlySchedule monthlySchedule = yearlyExact monthlySchedule :=
  aggregateYearly_eq_yearlyExact

/-- C7: `calculateGrowth` returns exactly `years` entries for `years ≥ 1`
(and, in general, `years.toNat` entries), and the empty list when
`years ≤ 0`, for every derived monthly rate and every option record. -/
theorem C7_growth_length :
    ∀ (monthlyReturnRate : ℚ) (options : EtfCalculatorOptions),
      (calculateGrowth monthlyReturnRate options).length = options.years.toNat ∧
      (options.years ≤ 0 → calculateGrowth monthlyReturnRate options = []) := by
  intro monthlyReturnRate options
  constructor
  · exact growthYears_length _ _ _ _ _ _ _
  · intro hy
    rw [calculateGrowth]
    have h0 : options.years.toNat = 0 := Int.toNat_of_nonpos hy
    rw [h0]
    rfl

/-- C7, witness: the length law at `years = 2` and the empty result at
`years = -3`, both with concrete option records. -/
theorem C7_growth_length_witness :
    (calculateGrowth 0 ⟨100, 10, 0, 2⟩).length = Int.toNat 2 ∧
    calculateGrowth 0 ⟨100, 10, 0, -3⟩ = [] :=
  ⟨(C7_growth_length 0 ⟨100, 10, 0, 2⟩).1,
    (C7_growth_length 0 ⟨100, 10, 0, -3⟩).2 (by norm_num)⟩

/-- C8, counterexample: with `initialBalance = 100`,
`monthlyContribution = 0 ≥ 0` and `annualReturnRate = 0 ≥ 0` (whose derived
geometric monthly rate is exactly `0`), both yearly `endBalance` values equal
`100`, so `endBalance` is not strictly increasing year over year. -/
theorem C8_constant_balance_counterexample :
    (0 : ℚ) ≤ 0 ∧
    (calculateGrowth 0 ⟨100, 0, 0, 2⟩).map EtfYearlyEntry.endBalance = [100, 100] ∧
    ¬ ((100 : ℚ) < 100) := by
  refine ⟨le_refl 0, ?_, lt_irrefl 100⟩
  rw [calculateGrowth]
  show (growthYears 0 0 (Int.toNat 2) 1 (jsRound 100) (jsRound 100) 0).map _ = _
  rw [jsRound_hundred]
  rw [growthYears_zero_rate_endBalances (Int.toNat 2) 1 100 100 0 ⟨10000, by norm_num⟩]
  rfl

/-- C8, amended: with a nonnegative derived monthly rate, a nonnegative
monthly contribution and a nonnegative initial balance (the documented
domain), the `endBalance` fields of consecutive entries of `calculateGrowth`
are non-decreasing year over year (not strictly increasing). -/
theorem C8_endBalance_monotone :
    ∀ (monthlyReturnRate : ℚ) (options : EtfCalculatorOptions),
      0 ≤ monthlyReturnRate → 0 ≤ options.monthlyContribution →
      0 ≤ options.initialBalance →
      List.Chain' (fun a b => a.endBalance ≤ b.endBalance)
        (calculateGrowth monthlyReturnRate options) := by
  intro monthlyReturnRate options hr hc h0
  exact growthYears_chain monthlyReturnRate options.monthlyContribution hr hc _ 1 _ _ _
    (jsRound_nonneg _ h0) (cents_jsRound _)

/-- C8, witness: the non-decreasing law at monthly rate `0`,
contribution `5`, initial balance `100` and `years = 4`. -/
theorem C8_endBalance_monotone_witness :
    0 ≤ (0 : ℚ) ∧ 0 ≤ (5 : ℚ) ∧ 0 ≤ (100 : ℚ) ∧
    List.Chain' (fun a b => a.endBalance ≤ b.endBalance)
      (calculateGrowth 0 ⟨100, 5, 0, 4⟩) :=
  ⟨le_refl 0, by norm_num, by norm_num,
    C8_endBalance_monotone 0 ⟨100, 5, 0, 4⟩ (le_refl 0) (by norm_num) (by norm_num)⟩

/-- C9: a zero principal fails the loop condition immediately, so
`calculateSchedule` returns the empty list (the embedding is total, so no
error can be raised), whatever the other parameters are. -/
theorem C9_zero_principal_empty :
    ∀ interestRate initialRepayment equity : ℚ,
      calculateSchedule ⟨0, interestRate, initialRepayment, equity⟩ = [] := by
  intro interestRate initialRepayment equity
  exact scheduleGo_nonpos _ _ _ _ _ (lt_irrefl 0)

/-- C10: the `year` fields of `aggregateYearlySchedule`'s output are the
consecutive integers `1, 2, 3, …` assigned by output position, independent of
the `year`/`month` values of the input entries, and the empty input yields an
empty output. -/
theorem C10_year_numbering :
    aggregateYearlySchedule [] = ([] : List YearlyPaymentEntry) ∧
    ∀ monthlySchedule : List PaymentEntry,
      (aggregateYearlySchedule monthlySchedule).map YearlyPaymentEntry.year =
        List.range' 1 (aggregateYearlySchedule monthlySchedule).length := by
  refine ⟨rfl, ?_⟩
  intro monthlySchedule
  rw [aggregateYearlySchedule]
  have h := aggGo_map_year monthlySchedule.length monthlySchedule 0 (freshYear 1)
  simpa [freshYear] using h

end CreditCalc
